import Mathlib

/-!
Shallow embedding of the auction server in `src/server/index.js`
(webSoket-ReactCountDown): the room registry (`joinRoom`, `leaveRoom`,
`broadcastToAuction`), the bid endpoint handler, the time-sync endpoint,
the `joinAuction` websocket message handler, and the periodic expiry
sweeper.  Times are modelled as `Int` milliseconds; prices and bid
amounts as `Int` (the server stores DECIMAL prices and compares with the
ordinary numeric order, which the claims only exercise on integral
values); the database table as a `List Auction`; a websocket connection
as a `Nat` identifier.  A JavaScript value that may be absent or of the
wrong type is an `Option`; a numeric request field parsed with `Number`
is an `Int`, with the convention that every falsy parse (`0`, `NaN`)
is represented by `0`.
-/

namespace AuctionCore

/-- Auction status, the ENUM of the `auctions` table. -/
inductive Status
  | pending
  | running
  | ended
deriving DecidableEq, Repr

/-- One row of the `auctions` table. -/
structure Auction where
  id : Int
  name : String
  startTime : Int
  endTime : Int
  currentPrice : Int
  status : Status
deriving DecidableEq, Repr

/-- The failure kinds of the bid endpoint (each is one of the handler's
400/404 replies). -/
inductive BidError
  | invalidInput
  | notFound
  | notStarted
  | closed
  | priceTooLow
deriving DecidableEq, Repr

/-- The `bidUpdate` payload broadcast on a successful bid. -/
structure BidUpdate where
  auctionId : Int
  newPrice : Int
  userId : String
  serverTime : Int
deriving DecidableEq, Repr

/-- Messages the server pushes over websockets. -/
inductive Msg
  | bidUpdate (u : BidUpdate)
  | auctionEnded (auctionId : Int) (serverTime : Int)
deriving DecidableEq, Repr

/-- `SELECT * FROM auctions WHERE id = ? LIMIT 1`. -/
def findAuction (db : List Auction) (id : Int) : Option Auction :=
  db.find? (fun a => a.id == id)

/-- `UPDATE auctions SET current_price = ?, status = 'running' WHERE id = ?`. -/
def setPrice (db : List Auction) (id : Int) (amount : Int) : List Auction :=
  db.map (fun a =>
    if a.id == id then { a with currentPrice := amount, status := Status.running } else a)

/-- `UPDATE auctions SET status = 'ended' WHERE id = ?`. -/
def setEnded (db : List Auction) (id : Int) : List Auction :=
  db.map (fun a => if a.id == id then { a with status := Status.ended } else a)

/-- Current price of a row, when it exists. -/
def priceOf (db : List Auction) (id : Int) : Option Int :=
  (findAuction db id).map Auction.currentPrice

/-- Current status of a row, when it exists. -/
def statusOf (db : List Auction) (id : Int) : Option Status :=
  (findAuction db id).map Auction.status

/-- `userId || "anonymous"`: the only falsy string is the empty string. -/
def orAnonymous : Option String → String
  | none => "anonymous"
  | some s => if s = "" then "anonymous" else s

/-- `typeof amount === "number" && amount > 0` for a possibly-absent field. -/
def isValidAmount : Option Int → Bool
  | none => false
  | some v => 0 < v

/-- The window and price checks the handler runs against the row it read:
`now < start_time` → not started; `now > end_time || status === 'ended'` →
closed; `amount <= current_price` → price too low. -/
def windowPriceCheck (a : Auction) (now : Int) (amount : Int) : Option BidError :=
  if now < a.startTime then some BidError.notStarted
  else if a.endTime < now ∨ a.status = Status.ended then some BidError.closed
  else if amount ≤ a.currentPrice then some BidError.priceTooLow
  else none

deriving instance DecidableEq for Except

/-- Result of one call to the bid endpoint: the table afterwards, the
broadcasts sent, and the response. -/
structure BidResult where
  db : List Auction
  sent : List Msg
  outcome : Except BidError BidUpdate
deriving DecidableEq, Repr

/-- The bid endpoint handler `POST /api/auctions/:id/bid`, run to
completion with no interleaving: input checks, point read, window and
price checks, then the unconditional price update and the room
broadcast. -/
def submitBid (db : List Auction) (now : Int) (id : Int) (amount : Option Int)
    (userId : Option String) : BidResult :=
  match amount with
  | none => ⟨db, [], Except.error BidError.invalidInput⟩
  | some v =>
    if id = 0 ∨ v ≤ 0 then ⟨db, [], Except.error BidError.invalidInput⟩
    else
      match findAuction db id with
      | none => ⟨db, [], Except.error BidError.notFound⟩
      | some a =>
        match windowPriceCheck a now v with
        | some e => ⟨db, [], Except.error e⟩
        | none =>
          let pay : BidUpdate := ⟨id, v, orAnonymous userId, now⟩
          ⟨setPrice db id v, [Msg.bidUpdate pay], Except.ok pay⟩

/-- The failure kind of a bid result, `none` on success. -/
def errOf (r : BidResult) : Option BidError :=
  match r.outcome with
  | Except.error e => some e
  | Except.ok _ => none

/-- A JavaScript value as seen by the time-sync endpoint: a number, a
string, or anything else (`other` also stands for `null`). -/
inductive JSVal
  | num (n : Int)
  | str (s : String)
  | other
deriving DecidableEq, Repr

/-- The only failure of the time-sync endpoint (its 400 reply). -/
inductive SyncError
  | invalidInput
deriving DecidableEq, Repr

/-- `POST /api/time-sync`: reject unless `clientTime` is a number or a
string, else reply `serverTime = Date.now()` together with the client
time, echoed verbatim when numeric and run through
`new Date(clientTime).getTime()` (abstracted as `parse`) when a string.
The result pair is `(serverTime, clientTime)`. -/
def timeSync (parse : String → Int) (now : Int) (clientTime : Option JSVal) :
    Except SyncError (Int × Int) :=
  match clientTime with
  | some (JSVal.num n) => Except.ok (now, n)
  | some (JSVal.str s) => Except.ok (now, parse s)
  | some JSVal.other => Except.error SyncError.invalidInput
  | none => Except.error SyncError.invalidInput

/-!  ## Room registry

`rooms` is the `Map` from auction id to the `Set` of sockets in that
room (a set is a duplicate-free insertion-ordered list); `assigned`
records each socket's `_auctionId` property (absent or `none` stands
for `null`/unset). -/

/-- The registry state: the room map and each socket's `_auctionId`. -/
structure Registry where
  rooms : List (Int × List Nat)
  assigned : List (Nat × Option Int)
deriving DecidableEq, Repr

/-- The registry at process start: no rooms, no assignments. -/
def emptyRegistry : Registry := ⟨[], []⟩

/-- First value bound to a key in an association list. -/
def assocFind {α β : Type} [BEq α] (l : List (α × β)) (k : α) : Option β :=
  (l.find? (fun e => e.1 == k)).map Prod.snd

/-- `Set.add`: append the socket unless already present. -/
def addMember (members : List Nat) (w : Nat) : List Nat :=
  if w ∈ members then members else members ++ [w]

/-- `ws._auctionId` of a socket: `none` when never set. -/
def assignedOf (st : Registry) (w : Nat) : Option Int :=
  match assocFind st.assigned w with
  | none => none
  | some v => v

/-- Record `ws._auctionId = v`. -/
def setAssigned (l : List (Nat × Option Int)) (w : Nat) (v : Option Int) :
    List (Nat × Option Int) :=
  l.filter (fun e => ¬(e.1 == w)) ++ [(w, v)]

/-- Members of a room, `[]` when the room entry does not exist. -/
def membersOf (st : Registry) (id : Int) : List Nat :=
  match assocFind st.rooms id with
  | none => []
  | some m => m

/-- `joinRoom(ws, auctionId)`: no-op on a falsy id, else add the socket
to the room's set (creating the entry) and set `ws._auctionId`.  The
prior membership, if any, is not removed. -/
def joinRoom (st : Registry) (w : Nat) (auctionId : Int) : Registry :=
  if auctionId = 0 then st
  else
    let rooms :=
      match assocFind st.rooms auctionId with
      | none => st.rooms ++ [(auctionId, [w])]
      | some _ =>
        st.rooms.map (fun e => if e.1 == auctionId then (e.1, addMember e.2 w) else e)
    ⟨rooms, setAssigned st.assigned w (some auctionId)⟩

/-- `leaveRoom(ws)`: no-op when `ws._auctionId` is falsy; else delete the
socket from that room's set, delete the entry if it became empty, and
null out `ws._auctionId`. -/
def leaveRoom (st : Registry) (w : Nat) : Registry :=
  match assignedOf st w with
  | none => st
  | some id =>
    if id = 0 then st
    else
      let rooms :=
        match assocFind st.rooms id with
        | none => st.rooms
        | some members =>
          let remaining := members.filter (fun x => ¬(x == w))
          if remaining = [] then st.rooms.filter (fun e => ¬(e.1 == id))
          else st.rooms.map (fun e => if e.1 == id then (e.1, remaining) else e)
      ⟨rooms, setAssigned st.assigned w none⟩

/-- A registry operation: a socket joins a room or leaves (close or
explicit leave). -/
inductive ROp
  | join (w : Nat) (auctionId : Int)
  | leave (w : Nat)
deriving DecidableEq, Repr

/-- Apply one registry operation. -/
def applyOp (st : Registry) : ROp → Registry
  | ROp.join w id => joinRoom st w id
  | ROp.leave w => leaveRoom st w

/-- Apply a sequence of registry operations in order. -/
def applyOps (st : Registry) (ops : List ROp) : Registry :=
  ops.foldl applyOp st

/-- The `joinAuction` websocket message handler: parse the id, return on
a falsy id, else `joinRoom` and then reply with the auction snapshot
when the row exists (the reply is the `auctionData` payload; there is no
error reply). -/
def handleJoinAuction (db : List Auction) (now : Int) (st : Registry) (w : Nat)
    (auctionId : Int) : Registry × Option (Auction × Int) :=
  if auctionId = 0 then (st, none)
  else
    let st' := joinRoom st w auctionId
    match findAuction db auctionId with
    | none => (st', none)
    | some a => (st', some (a, now))

/-!  ## Expiry sweeper -/

/-- `SELECT * FROM auctions WHERE status != 'ended' AND end_time <= now`. -/
def expiredRows (db : List Auction) (now : Int) : List Auction :=
  db.filter (fun a => a.status ≠ Status.ended ∧ a.endTime ≤ now)

/-- One tick of the `setInterval` sweeper: select the rows with
`status != 'ended' AND end_time <= now`, then for each selected row set
its status to `ended` and broadcast `auctionEnded`. -/
def sweepOnce (db : List Auction) (now : Int) : List Auction × List Msg :=
  (expiredRows db now).foldl
    (fun acc a => (setEnded acc.1 a.id, acc.2 ++ [Msg.auctionEnded a.id now])) (db, [])

/-- The `auctionEnded` messages for one auction id among sent messages. -/
def endedMsgsFor (msgs : List Msg) (id : Int) : List Msg :=
  msgs.filter (fun m =>
    match m with
    | Msg.auctionEnded j _ => j == id
    | _ => false)

/-!  ## Sequential bid runs -/

/-- One bid request as the endpoint receives it. -/
structure BidReq where
  now : Int
  auctionId : Int
  amount : Option Int
  userId : Option String
deriving DecidableEq, Repr

/-- Run a sequence of bid requests through the endpoint, threading the
table and collecting every broadcast in order. -/
def runBids (db : List Auction) : List BidReq → List Auction × List Msg
  | [] => (db, [])
  | b :: rest =>
    let r := submitBid db b.now b.auctionId b.amount b.userId
    let r2 := runBids r.db rest
    (r2.1, r.sent ++ r2.2)

/-- The `newPrice` values of the `bidUpdate` broadcasts for one auction,
in broadcast order. -/
def newPrices (msgs : List Msg) (id : Int) : List Int :=
  msgs.filterMap (fun m =>
    match m with
    | Msg.bidUpdate u => if u.auctionId == id then some u.newPrice else none
    | _ => none)

/-!  ## Two concurrent bid requests

The handler suspends at each database round trip, so two in-flight
requests on one auction interleave at the store: each request is a
`SELECT`-plus-validation step (the checks run synchronously on the row
snapshot the `SELECT` returned) followed, when validation passed, by the
unconditional `UPDATE`-plus-broadcast step.  A schedule is the order in
which the two requests' store operations take effect. -/

/-- Progress of one in-flight bid request. -/
inductive BPhase
  | ready
  | validated
  | done (r : Except BidError Int)
deriving DecidableEq, Repr

/-- One in-flight bid request on the contended auction. -/
structure BidTask where
  amount : Int
  phase : BPhase
deriving DecidableEq, Repr

/-- A store event of one of the two requests: its read-and-validate step
or its write-and-broadcast step. -/
inductive CEvent
  | readA
  | readB
  | writeA
  | writeB
deriving DecidableEq, Repr

/-- The contended auction row, the two requests, and the broadcast
`newPrice` values so far. -/
structure ConcState where
  auction : Auction
  taskA : BidTask
  taskB : BidTask
  broadcasts : List Int
deriving DecidableEq, Repr

/-- The read step: `SELECT` the row and run the window and price checks
on the snapshot (the same `windowPriceCheck` the sequential handler
runs); no effect unless the request is still `ready`. -/
def stepRead (now : Int) (au : Auction) (t : BidTask) : BidTask :=
  match t.phase with
  | BPhase.ready =>
    match windowPriceCheck au now t.amount with
    | some e => { t with phase := BPhase.done (Except.error e) }
    | none => { t with phase := BPhase.validated }
  | _ => t

/-- The write step: the unconditional
`UPDATE auctions SET current_price = ?, status = 'running'` followed by
the broadcast; no effect unless the request is `validated`. -/
def stepWrite (au : Auction) (t : BidTask) (bs : List Int) :
    Auction × BidTask × List Int :=
  match t.phase with
  | BPhase.validated =>
    ({ au with currentPrice := t.amount, status := Status.running },
      { t with phase := BPhase.done (Except.ok t.amount) }, bs ++ [t.amount])
  | _ => (au, t, bs)

/-- Apply one store event. -/
def concStep (now : Int) (st : ConcState) : CEvent → ConcState
  | CEvent.readA => { st with taskA := stepRead now st.auction st.taskA }
  | CEvent.readB => { st with taskB := stepRead now st.auction st.taskB }
  | CEvent.writeA =>
    let r := stepWrite st.auction st.taskA st.broadcasts
    { st with auction := r.1, taskA := r.2.1, broadcasts := r.2.2 }
  | CEvent.writeB =>
    let r := stepWrite st.auction st.taskB st.broadcasts
    { st with auction := r.1, taskB := r.2.1, broadcasts := r.2.2 }

/-- Run a schedule of store events. -/
def concRun (now : Int) (st : ConcState) (evs : List CEvent) : ConcState :=
  evs.foldl (concStep now) st

/-!  ## Definitions written from the spec's words, for comparison -/

/-- Written from the claim's words, not from the code: the first failing
precondition in the order the claim states — (1) existence, else
NotFound; (2) positive numeric amount, else InvalidInput; (3) started;
(4) window open and not ended; (5) amount strictly above the price. -/
def claimFirstFailure (db : List Auction) (now : Int) (id : Int) (amount : Option Int) :
    Option BidError :=
  match findAuction db id with
  | none => some BidError.notFound
  | some a =>
    if isValidAmount amount = false then some BidError.invalidInput
    else if now < a.startTime then some BidError.notStarted
    else if now ≤ a.endTime ∧ a.status ≠ Status.ended then
      (if a.currentPrice < amount.getD 0 then none else some BidError.priceTooLow)
    else some BidError.closed

/-- The order the code actually checks, written out as the amended
claim states it: (1) truthy id and positive numeric amount, else
InvalidInput; (2) existence, else NotFound; (3) started; (4) window open
and not ended; (5) amount strictly above the price. -/
def orderedFirstFailure (db : List Auction) (now : Int) (id : Int) (amount : Option Int) :
    Option BidError :=
  if id = 0 ∨ isValidAmount amount = false then some BidError.invalidInput
  else
    match findAuction db id with
    | none => some BidError.notFound
    | some a =>
      if now < a.startTime then some BidError.notStarted
      else if now ≤ a.endTime ∧ a.status ≠ Status.ended then
        (if a.currentPrice < amount.getD 0 then none else some BidError.priceTooLow)
      else some BidError.closed

/-- The room-registry invariant under scrutiny: no room entry with an
empty member set. -/
def roomsNonempty (st : Registry) : Prop :=
  ∀ e ∈ st.rooms, e.2 ≠ []

/-- The auction of the spec's concrete race scenario: price 100, window
open at the observation instant. -/
def raceAuction : Auction := ⟨1, "item", 0, 1000, 100, Status.running⟩

/-- Two in-flight bids of 150 and 120 on `raceAuction`, none yet begun. -/
def raceStart : ConcState :=
  ⟨raceAuction, ⟨150, BPhase.ready⟩, ⟨120, BPhase.ready⟩, []⟩

/-- The schedule where both requests pass validation before either
commits, and the 150 commit lands first. -/
def raceSchedule : List CEvent :=
  [CEvent.readA, CEvent.readB, CEvent.writeA, CEvent.writeB]

/-!  ## Helper lemmas -/

theorem findAuction_map (db : List Auction) (j : Int) (f : Auction → Auction)
    (hf : ∀ a, (f a).id = a.id) :
    findAuction (db.map f) j = (findAuction db j).map f := by
  unfold findAuction
  rw [List.find?_map]
  have h : ((fun a => a.id == j) ∘ f) = (fun a => a.id == j) := by
    funext a
    simp [Function.comp, hf]
  rw [h]

theorem findAuction_id (db : List Auction) (j : Int) (a : Auction)
    (h : findAuction db j = some a) : a.id = j := by
  simpa using List.find?_some h

theorem findAuction_setPrice (db : List Auction) (i j v : Int) :
    findAuction (setPrice db i v) j =
      (findAuction db j).map
        (fun a => if j = i then { a with currentPrice := v, status := Status.running } else a) := by
  unfold setPrice
  rw [findAuction_map _ _ _ (fun a => by by_cases h : a.id == i <;> simp [h])]
  cases h : findAuction db j with
  | none => rfl
  | some a =>
    have ha : a.id = j := findAuction_id db j a h
    simp [ha]

theorem priceOf_setPrice_self (db : List Auction) (i v : Int) (a : Auction)
    (h : findAuction db i = some a) : priceOf (setPrice db i v) i = some v := by
  unfold priceOf
  rw [findAuction_setPrice, h]
  simp

theorem priceOf_setPrice_other (db : List Auction) (i j v : Int) (hij : j ≠ i) :
    priceOf (setPrice db i v) j = priceOf db j := by
  unfold priceOf
  rw [findAuction_setPrice]
  cases findAuction db j with
  | none => rfl
  | some a => simp [hij]

theorem submitBid_eq_invalid_none (db : List Auction) (now id : Int) (u : Option String) :
    submitBid db now id none u = ⟨db, [], Except.error BidError.invalidInput⟩ := rfl

theorem submitBid_eq_invalid (db : List Auction) (now id v : Int) (u : Option String)
    (h : id = 0 ∨ v ≤ 0) :
    submitBid db now id (some v) u = ⟨db, [], Except.error BidError.invalidInput⟩ := by
  simp [submitBid, h]

theorem submitBid_eq_notFound (db : List Auction) (now id v : Int) (u : Option String)
    (h1 : ¬(id = 0 ∨ v ≤ 0)) (h2 : findAuction db id = none) :
    submitBid db now id (some v) u = ⟨db, [], Except.error BidError.notFound⟩ := by
  simp [submitBid, h1, h2]

theorem submitBid_eq_check (db : List Auction) (now id v : Int) (u : Option String)
    (a : Auction) (e : BidError) (h1 : ¬(id = 0 ∨ v ≤ 0)) (h2 : findAuction db id = some a)
    (h3 : windowPriceCheck a now v = some e) :
    submitBid db now id (some v) u = ⟨db, [], Except.error e⟩ := by
  simp [submitBid, h1, h2, h3]

theorem submitBid_eq_ok (db : List Auction) (now id v : Int) (u : Option String)
    (a : Auction) (h1 : ¬(id = 0 ∨ v ≤ 0)) (h2 : findAuction db id = some a)
    (h3 : windowPriceCheck a now v = none) :
    submitBid db now id (some v) u =
      ⟨setPrice db id v, [Msg.bidUpdate ⟨id, v, orAnonymous u, now⟩],
        Except.ok ⟨id, v, orAnonymous u, now⟩⟩ := by
  simp [submitBid, h1, h2, h3]

theorem windowPriceCheck_none (a : Auction) (now v : Int)
    (h : windowPriceCheck a now v = none) :
    a.startTime ≤ now ∧ now ≤ a.endTime ∧ a.status ≠ Status.ended ∧ a.currentPrice < v := by
  unfold windowPriceCheck at h
  split at h
  · exact absurd h (by simp)
  · split at h
    · exact absurd h (by simp)
    · split at h
      · exact absurd h (by simp)
      · rename_i h1 h2 h3
        push_neg at h1 h2 h3
        exact ⟨h1, h2.1, h2.2, h3⟩

/-- Full case analysis of one bid-endpoint call: either it fails and
leaves the table untouched with nothing sent, or it succeeds with the
sole price mutation and the sole broadcast. -/
theorem submitBid_inv (db : List Auction) (now id : Int) (amount : Option Int)
    (u : Option String) :
    ((submitBid db now id amount u).db = db ∧ (submitBid db now id amount u).sent = [] ∧
      ∃ e, (submitBid db now id amount u).outcome = Except.error e) ∨
    (∃ v a, amount = some v ∧ ¬(id = 0 ∨ v ≤ 0) ∧ findAuction db id = some a ∧
      windowPriceCheck a now v = none ∧
      submitBid db now id amount u =
        ⟨setPrice db id v, [Msg.bidUpdate ⟨id, v, orAnonymous u, now⟩],
          Except.ok ⟨id, v, orAnonymous u, now⟩⟩) := by
  cases amount with
  | none => exact Or.inl ⟨rfl, rfl, BidError.invalidInput, rfl⟩
  | some v =>
    by_cases h1 : id = 0 ∨ v ≤ 0
    · rw [submitBid_eq_invalid db now id v u h1]
      exact Or.inl ⟨rfl, rfl, BidError.invalidInput, rfl⟩
    · cases h2 : findAuction db id with
      | none =>
        rw [submitBid_eq_notFound db now id v u h1 h2]
        exact Or.inl ⟨rfl, rfl, BidError.notFound, rfl⟩
      | some a =>
        cases h3 : windowPriceCheck a now v with
        | some e =>
          rw [submitBid_eq_check db now id v u a e h1 h2 h3]
          exact Or.inl ⟨rfl, rfl, e, rfl⟩
        | none =>
          exact Or.inr (Exists.intro v (Exists.intro a (And.intro rfl (And.intro h1
            (And.intro rfl (And.intro h3 (submitBid_eq_ok db now id v u a h1 h2 h3)))))))

theorem newPrices_bidUpdate_cons (u : BidUpdate) (ms : List Msg) (i : Int) :
    newPrices (Msg.bidUpdate u :: ms) i =
      if u.auctionId = i then u.newPrice :: newPrices ms i else newPrices ms i := by
  by_cases h : u.auctionId = i <;> simp [newPrices, h]

/-- Sequential runs keep the broadcast prices of one auction strictly
above the price they started from, and the persisted price moves only
upward. -/
theorem runBids_chain (bids : List BidReq) : ∀ (db : List Auction) (i p : Int),
    priceOf db i = some p →
    List.Chain' (fun x y : Int => x < y) (p :: newPrices (runBids db bids).2 i) ∧
      ∃ q, priceOf (runBids db bids).1 i = some q ∧ p ≤ q := by
  induction bids with
  | nil =>
    intro db i p hp
    exact ⟨List.chain'_singleton p, p, hp, le_rfl⟩
  | cons b rest ih =>
    intro db i p hp
    rcases submitBid_inv db b.now b.auctionId b.amount b.userId with
      ⟨hdb, hsent, _e, _houtcome⟩ | ⟨v, a, _hamt, _h1, hf, hw, heq⟩
    · have hrun : runBids db (b :: rest) = runBids db rest := by
        simp only [runBids]
        rw [hdb, hsent]
        simp
      rw [hrun]
      exact ih db i p hp
    · have hrun : runBids db (b :: rest) =
          ((runBids (setPrice db b.auctionId v) rest).1,
            Msg.bidUpdate ⟨b.auctionId, v, orAnonymous b.userId, b.now⟩ ::
              (runBids (setPrice db b.auctionId v) rest).2) := by
        simp only [runBids]
        rw [heq]
        simp
      rw [hrun]
      by_cases hji : b.auctionId = i
      · rw [hji] at hf heq
        have hpa : a.currentPrice = p := by
          unfold priceOf at hp
          rw [hf] at hp
          simpa using hp
        have hlt : p < v := hpa ▸ (windowPriceCheck_none a b.now v hw).2.2.2
        have hp2 : priceOf (setPrice db i v) i = some v :=
          priceOf_setPrice_self db i v a hf
        obtain ⟨hchain, q, hq, hvq⟩ := ih (setPrice db i v) i v hp2
        rw [newPrices_bidUpdate_cons]
        simp only [hji, if_pos rfl]
        exact ⟨List.chain'_cons.mpr ⟨hlt, hchain⟩, q, hq, le_trans (le_of_lt hlt) hvq⟩
      · have hp2 : priceOf (setPrice db b.auctionId v) i = some p := by
          rw [priceOf_setPrice_other db b.auctionId i v (fun hc => hji hc.symm)]
          exact hp
        obtain ⟨hchain, q, hq, hpq⟩ := ih (setPrice db b.auctionId v) i p hp2
        rw [newPrices_bidUpdate_cons]
        simp only [hji, if_neg hji]
        exact ⟨hchain, q, hq, hpq⟩

theorem sweepFoldPair (l : List Auction) : ∀ (db : List Auction) (ms : List Msg) (now : Int),
    l.foldl (fun acc a => (setEnded acc.1 a.id, acc.2 ++ [Msg.auctionEnded a.id now])) (db, ms) =
      (l.foldl (fun d a => setEnded d a.id) db,
        ms ++ l.map (fun a => Msg.auctionEnded a.id now)) := by
  induction l with
  | nil =>
    intro db ms now
    simp
  | cons x t ih =>
    intro db ms now
    rw [List.foldl_cons, List.foldl_cons, ih]
    simp

theorem sweepOnce_eq (db : List Auction) (now : Int) :
    sweepOnce db now =
      ((expiredRows db now).foldl (fun d a => setEnded d a.id) db,
        (expiredRows db now).map (fun a => Msg.auctionEnded a.id now)) := by
  unfold sweepOnce
  rw [sweepFoldPair]
  simp

theorem endFold_eq_map (l : List Auction) : ∀ db : List Auction,
    l.foldl (fun d a => setEnded d a.id) db =
      db.map (fun a =>
        if a.id ∈ l.map Auction.id then { a with status := Status.ended } else a) := by
  induction l with
  | nil =>
    intro db
    simp
  | cons x t ih =>
    intro db
    rw [List.foldl_cons, ih]
    unfold setEnded
    rw [List.map_map]
    congr 1
    funext a
    by_cases hax : a.id = x.id
    · simp [Function.comp, hax]
    · simp [Function.comp, hax]

theorem findAuction_self (db : List Auction) (a : Auction)
    (hnd : (db.map Auction.id).Nodup) (ha : a ∈ db) : findAuction db a.id = some a := by
  induction db with
  | nil => cases ha
  | cons x t ih =>
    rw [List.map_cons, List.nodup_cons] at hnd
    rcases List.mem_cons.mp ha with rfl | hmem
    · unfold findAuction
      rw [List.find?_cons_of_pos _ (by simp)]
    · have hxa : (x.id == a.id) = false := by
        refine beq_eq_false_iff_ne.mpr ?_
        intro hc
        exact hnd.1 (hc ▸ List.mem_map_of_mem Auction.id hmem)
      unfold findAuction
      rw [List.find?_cons, hxa]
      exact ih hnd.2 hmem

theorem filter_id_singleton (l : List Auction) (a : Auction)
    (hnd : (l.map Auction.id).Nodup) (ha : a ∈ l) :
    l.filter (fun x => x.id == a.id) = [a] := by
  induction l with
  | nil => cases ha
  | cons x t ih =>
    rw [List.map_cons, List.nodup_cons] at hnd
    rcases List.mem_cons.mp ha with rfl | hmem
    · rw [List.filter_cons_of_pos (by simp)]
      have ht : t.filter (fun y => y.id == a.id) = [] := by
        rw [List.filter_eq_nil_iff]
        intro y hy
        simp only [beq_iff_eq]
        intro hc
        exact hnd.1 (hc ▸ List.mem_map_of_mem Auction.id hy)
      rw [ht]
    · have hxa : (x.id == a.id) = false := by
        refine beq_eq_false_iff_ne.mpr ?_
        intro hc
        exact hnd.1 (hc ▸ List.mem_map_of_mem Auction.id hmem)
      rw [List.filter_cons, hxa]
      exact ih hnd.2 hmem

theorem addMember_ne_nil (m : List Nat) (w : Nat) : addMember m w ≠ [] := by
  unfold addMember
  split
  · exact List.ne_nil_of_mem (by assumption)
  · simp

theorem mem_addMember (m : List Nat) (w : Nat) : w ∈ addMember m w := by
  unfold addMember
  split
  · assumption
  · simp

theorem joinRoom_nonempty (st : Registry) (w : Nat) (id : Int)
    (h : roomsNonempty st) : roomsNonempty (joinRoom st w id) := by
  unfold joinRoom
  split
  · exact h
  · cases hfind : assocFind st.rooms id with
    | none =>
      intro e he
      simp only at he
      rcases List.mem_append.mp he with h1 | h2
      · exact h e h1
      · have : e = (id, [w]) := by simpa using h2
        rw [this]
        simp
    | some m =>
      intro e he
      simp only at he
      rcases List.mem_map.mp he with ⟨e0, he0, rfl⟩
      by_cases h0 : e0.1 == id
      · simp only [h0, if_pos]
        exact addMember_ne_nil e0.2 w
      · rw [if_neg h0]
        exact h e0 he0

theorem leaveRoom_nonempty (st : Registry) (w : Nat)
    (h : roomsNonempty st) : roomsNonempty (leaveRoom st w) := by
  unfold leaveRoom
  cases assignedOf st w with
  | none => exact h
  | some id =>
    dsimp only
    by_cases hid : id = 0
    · rw [if_pos hid]
      exact h
    · rw [if_neg hid]
      cases hfind : assocFind st.rooms id with
      | none => exact h
      | some members =>
        dsimp only
        by_cases hrem : members.filter (fun x => ¬(x == w)) = []
        · rw [if_pos hrem]
          intro e he
          simp only at he
          exact h e (List.mem_of_mem_filter he)
        · rw [if_neg hrem]
          intro e he
          simp only at he
          rcases List.mem_map.mp he with ⟨e0, he0, rfl⟩
          by_cases h0 : e0.1 == id
          · simp only [h0, if_pos]
            exact hrem
          · rw [if_neg h0]
            exact h e0 he0

theorem applyOps_nonempty (ops : List ROp) : ∀ st : Registry,
    roomsNonempty st → roomsNonempty (applyOps st ops) := by
  induction ops with
  | nil =>
    intro st h
    exact h
  | cons op rest ih =>
    intro st h
    cases op with
    | join w id => exact ih (joinRoom st w id) (joinRoom_nonempty st w id h)
    | leave w => exact ih (leaveRoom st w) (leaveRoom_nonempty st w h)

theorem mem_joinRoom (st : Registry) (w : Nat) (id : Int) (h : id ≠ 0) :
    w ∈ membersOf (joinRoom st w id) id := by
  unfold joinRoom
  rw [if_neg h]
  cases hfind : assocFind st.rooms id with
  | none =>
    have h1 : st.rooms.find? (fun e => e.1 == id) = none := by
      unfold assocFind at hfind
      exact Option.map_eq_none'.mp hfind
    unfold membersOf assocFind
    simp only
    rw [List.find?_append, h1]
    simp
  | some m =>
    obtain ⟨e0, he0, hsnd⟩ : ∃ e0, st.rooms.find? (fun e => e.1 == id) = some e0 ∧ e0.2 = m := by
      unfold assocFind at hfind
      rcases Option.map_eq_some'.mp hfind with ⟨e0, he0, hsnd⟩
      exact ⟨e0, he0, hsnd⟩
    have hkey : e0.1 = id := by simpa using List.find?_some he0
    unfold membersOf assocFind
    simp only
    rw [List.find?_map]
    have hcomp : ((fun e : Int × List Nat => e.1 == id) ∘
        (fun e : Int × List Nat => if e.1 == id then (e.1, addMember e.2 w) else e)) =
        (fun e : Int × List Nat => e.1 == id) := by
      funext e
      by_cases hc : e.1 == id <;> simp [Function.comp, hc]
    rw [hcomp, he0]
    simp [hkey]
    exact mem_addMember e0.2 w

theorem specWindow_eq (a : Auction) (now v : Int) :
    (if now < a.startTime then some BidError.notStarted
     else if now ≤ a.endTime ∧ a.status ≠ Status.ended then
       (if a.currentPrice < v then none else some BidError.priceTooLow)
     else some BidError.closed) = windowPriceCheck a now v := by
  unfold windowPriceCheck
  by_cases c1 : now < a.startTime
  · rw [if_pos c1, if_pos c1]
  · rw [if_neg c1, if_neg c1]
    by_cases c2 : now ≤ a.endTime ∧ a.status ≠ Status.ended
    · rw [if_pos c2]
      have c2' : ¬(a.endTime < now ∨ a.status = Status.ended) := by
        rintro (hx | hx)
        · exact absurd c2.1 (not_le.mpr hx)
        · exact c2.2 hx
      rw [if_neg c2']
      by_cases c3 : a.currentPrice < v
      · rw [if_pos c3, if_neg (not_le.mpr c3)]
      · rw [if_neg c3, if_pos (not_lt.mp c3)]
    · rw [if_neg c2]
      have c2' : a.endTime < now ∨ a.status = Status.ended := by
        by_cases hx : now ≤ a.endTime
        · right
          by_contra hy
          exact c2 ⟨hx, hy⟩
        · exact Or.inl (not_le.mp hx)
      rw [if_pos c2']

/-!  ## Claim theorems -/

/-- C1 counterexample: the claim says the commit is an atomic
compare-and-advance, so that with price 100 and concurrent bids of 150
and 120 exactly one commit succeeds with 150 and the 120 bid fails
PriceTooLow, and a lower bid never overwrites a higher persisted price.
On the code's unconditional UPDATE, the schedule read-150, read-120,
write-150, write-120 makes both bids succeed, the price reaches 150 and
is then overwritten down to 120. -/
theorem race_lost_update_counterexample :
    (concRun 10 raceStart [CEvent.readA, CEvent.readB, CEvent.writeA]).auction.currentPrice =
        150 ∧
      (concRun 10 raceStart raceSchedule).auction.currentPrice = 120 ∧
      (concRun 10 raceStart raceSchedule).taskA.phase = BPhase.done (Except.ok 150) ∧
      (concRun 10 raceStart raceSchedule).taskB.phase = BPhase.done (Except.ok 120) ∧
      (concRun 10 raceStart raceSchedule).broadcasts = [150, 120] := by
  decide

/-- C1 amended: the commit step is an unconditional UPDATE with no
conditional check, no collision detection and no retry; whenever two
bids above the current price both pass validation before either commits,
both succeed and the later, lower write leaves the persisted price below
the earlier, higher one. -/
theorem race_unconditional_write (p a b now s e : Int) (hpa : p < a) (hpb : p < b)
    (hs : s ≤ now) (he : now ≤ e) :
    concRun now ⟨⟨1, "item", s, e, p, Status.running⟩, ⟨a, BPhase.ready⟩,
        ⟨b, BPhase.ready⟩, []⟩ [CEvent.readA, CEvent.readB, CEvent.writeA, CEvent.writeB] =
      ⟨⟨1, "item", s, e, b, Status.running⟩, ⟨a, BPhase.done (Except.ok a)⟩,
        ⟨b, BPhase.done (Except.ok b)⟩, [a, b]⟩ := by
  have h1 : ¬(now < s) := not_lt.mpr hs
  have h2 : ¬(e < now) := not_lt.mpr he
  have h3 : ¬(a ≤ p) := not_le.mpr hpa
  have h4 : ¬(b ≤ p) := not_le.mpr hpb
  simp [concRun, concStep, stepRead, stepWrite, windowPriceCheck, h1, h2, h3, h4]

/-- Witness for the C1 amended theorem at the spec's concrete numbers. -/
theorem race_unconditional_write_witness :
    concRun 10 ⟨⟨1, "item", 0, 1000, 100, Status.running⟩, ⟨150, BPhase.ready⟩,
        ⟨120, BPhase.ready⟩, []⟩ [CEvent.readA, CEvent.readB, CEvent.writeA, CEvent.writeB] =
      ⟨⟨1, "item", 0, 1000, 120, Status.running⟩, ⟨150, BPhase.done (Except.ok 150)⟩,
        ⟨120, BPhase.done (Except.ok 120)⟩, [150, 120]⟩ :=
  race_unconditional_write 100 150 120 10 0 1000 (by decide) (by decide) (by decide)
    (by decide)

/-- C2 counterexample: the claim puts the NotFound check first; on an
unknown auction id together with a negative amount the code returns
InvalidInput while the claim's order requires NotFound. -/
theorem bid_check_order_counterexample :
    errOf (submitBid [] 0 5 (some (-5)) none) = some BidError.invalidInput ∧
      claimFirstFailure [] 0 5 (some (-5)) = some BidError.notFound ∧
      errOf (submitBid [] 0 5 (some (-5)) none) ≠ claimFirstFailure [] 0 5 (some (-5)) := by
  decide

/-- C2 amended: the bid handler checks its preconditions in the order
(1) truthy id and positive numeric amount else InvalidInput, (2)
existing auction else NotFound, (3) started else NotStarted, (4) window
open and not ended else Closed, (5) amount strictly above the current
price else PriceTooLow, and the returned failure is always the first
failing check in this order. -/
theorem bid_check_order (db : List Auction) (now id : Int) (amount : Option Int)
    (u : Option String) :
    errOf (submitBid db now id amount u) = orderedFirstFailure db now id amount := by
  cases amount with
  | none =>
    unfold orderedFirstFailure
    have hcond : id = 0 ∨ isValidAmount none = false := Or.inr rfl
    rw [if_pos hcond]
    rfl
  | some v =>
    unfold orderedFirstFailure
    by_cases h1 : id = 0 ∨ v ≤ 0
    · have h1b : id = 0 ∨ isValidAmount (some v) = false := by
        rcases h1 with h | h
        · exact Or.inl h
        · refine Or.inr ?_
          simp [isValidAmount]
          omega
      rw [submitBid_eq_invalid db now id v u h1, if_pos h1b]
      rfl
    · have h1b : ¬(id = 0 ∨ isValidAmount (some v) = false) := by
        rintro (h | h)
        · exact h1 (Or.inl h)
        · refine h1 (Or.inr ?_)
          simp [isValidAmount] at h
          omega
      rw [if_neg h1b]
      cases hf : findAuction db id with
      | none =>
        rw [submitBid_eq_notFound db now id v u h1 hf]
        rfl
      | some a =>
        simp only [Option.getD_some]
        rw [specWindow_eq]
        cases hw : windowPriceCheck a now v with
        | some e =>
          rw [submitBid_eq_check db now id v u a e h1 hf hw]
          rfl
        | none =>
          rw [submitBid_eq_ok db now id v u a h1 hf hw]
          rfl

/-- C3 counterexample: the claim says a connection is a member of at
most one room and that a second join first removes the earlier
membership record; after socket 1 joins room 1 and then room 2, the code
leaves it a member of both rooms. -/
theorem second_join_two_rooms :
    membersOf (applyOps emptyRegistry [ROp.join 1 1, ROp.join 1 2]) 1 = [1] ∧
      membersOf (applyOps emptyRegistry [ROp.join 1 1, ROp.join 1 2]) 2 = [1] ∧
      ¬((applyOps emptyRegistry [ROp.join 1 1, ROp.join 1 2]).rooms.filter
        (fun e => 1 ∈ e.2)).length ≤ 1 := by
  decide

/-- C3 amended: after any sequence of join and leave operations from the
initial registry, no room entry exists with zero members; a connection
may however be left a member of several rooms' sets, because a second
join only overwrites the tracked room id without removing the earlier
membership record. -/
theorem registry_no_empty_rooms (ops : List ROp) :
    roomsNonempty (applyOps emptyRegistry ops) :=
  applyOps_nonempty ops emptyRegistry (fun e he => absurd he (List.not_mem_nil e))

/-- Witness for the C3 amended theorem on a one-join run. -/
theorem registry_no_empty_rooms_witness :
    ((2 : Int), ([1] : List Nat)) ∈ (applyOps emptyRegistry [ROp.join 1 2]).rooms ∧
      ((2 : Int), ([1] : List Nat)).2 ≠ [] :=
  ⟨by decide, registry_no_empty_rooms [ROp.join 1 2] ((2 : Int), ([1] : List Nat)) (by decide)⟩

theorem mem_expiredRows (db : List Auction) (now : Int) (b : Auction) :
    b ∈ expiredRows db now ↔ b ∈ db ∧ b.status ≠ Status.ended ∧ b.endTime ≤ now := by
  unfold expiredRows
  simp [List.mem_filter]

/-- C4: on a table with unique ids, one sweep over an expired, not yet
ended auction broadcasts exactly one auctionEnded message for it and
flips its status from its previous non-ended value to ended, and an
immediately repeated sweep changes nothing and broadcasts nothing. -/
theorem sweep_idempotent (db : List Auction) (now : Int) (a : Auction)
    (hnd : (db.map Auction.id).Nodup) (ha : a ∈ db) (hs : a.status ≠ Status.ended)
    (he : a.endTime ≤ now) :
    endedMsgsFor (sweepOnce db now).2 a.id = [Msg.auctionEnded a.id now] ∧
      statusOf db a.id = some a.status ∧
      statusOf (sweepOnce db now).1 a.id = some Status.ended ∧
      sweepOnce (sweepOnce db now).1 now = ((sweepOnce db now).1, []) := by
  have hmemexp : a ∈ expiredRows db now := (mem_expiredRows db now a).mpr ⟨ha, hs, he⟩
  have hndexp : ((expiredRows db now).map Auction.id).Nodup := by
    unfold expiredRows
    exact List.Nodup.sublist (List.Sublist.map Auction.id (List.filter_sublist db)) hnd
  rw [sweepOnce_eq]
  dsimp only
  refine ⟨?_, ?_, ?_, ?_⟩
  · unfold endedMsgsFor
    rw [List.filter_map]
    have hcomp : ((fun m => match m with
        | Msg.auctionEnded j _ => j == a.id
        | _ => false) ∘ (fun x : Auction => Msg.auctionEnded x.id now)) =
        (fun x : Auction => x.id == a.id) := rfl
    rw [hcomp, filter_id_singleton (expiredRows db now) a hndexp hmemexp]
    rfl
  · unfold statusOf
    rw [findAuction_self db a hnd ha]
    rfl
  · rw [endFold_eq_map]
    unfold statusOf
    rw [findAuction_map _ _ _ (fun x => by split <;> rfl),
      findAuction_self db a hnd ha]
    have hin2 : ∃ x ∈ expiredRows db now, x.id = a.id := ⟨a, hmemexp, rfl⟩
    simp [hin2]
  · have hexp2 : expiredRows
        ((expiredRows db now).foldl (fun d x => setEnded d x.id) db) now = [] := by
      rw [endFold_eq_map, List.eq_nil_iff_forall_not_mem]
      intro b hbmem
      obtain ⟨hb1, hbs, hbe⟩ := (mem_expiredRows _ now b).mp hbmem
      rcases List.mem_map.mp hb1 with ⟨c, hc, rfl⟩
      by_cases hcin : c.id ∈ (expiredRows db now).map Auction.id
      · exact hbs (by rw [if_pos hcin])
      · rw [if_neg hcin] at hbs hbe
        exact hcin
          (List.mem_map_of_mem Auction.id ((mem_expiredRows db now c).mpr ⟨hc, hbs, hbe⟩))
    rw [sweepOnce_eq, hexp2]
    rfl

/-- Witness for C4 on a one-row table whose auction expired at time 10. -/
theorem sweep_idempotent_witness :
    endedMsgsFor (sweepOnce [⟨1, "a", 0, 5, 100, Status.running⟩] 10).2 1 =
        [Msg.auctionEnded 1 10] ∧
      sweepOnce (sweepOnce [⟨1, "a", 0, 5, 100, Status.running⟩] 10).1 10 =
        ((sweepOnce [⟨1, "a", 0, 5, 100, Status.running⟩] 10).1, []) :=
  ⟨(sweep_idempotent [⟨1, "a", 0, 5, 100, Status.running⟩] 10
      ⟨1, "a", 0, 5, 100, Status.running⟩ (by decide) (by decide) (by decide) (by decide)).1,
    (sweep_idempotent [⟨1, "a", 0, 5, 100, Status.running⟩] 10
      ⟨1, "a", 0, 5, 100, Status.running⟩ (by decide) (by decide) (by decide)
      (by decide)).2.2.2⟩

/-- C5: over any sequence of sequential bid submissions, the broadcast
bidUpdate.newPrice values of one auction are strictly increasing, and
the persisted currentPrice of that auction never decreases. -/
theorem price_monotone (db : List Auction) (bids : List BidReq) (i p q : Int)
    (hp : priceOf db i = some p) (hq : priceOf (runBids db bids).1 i = some q) :
    List.Chain' (fun x y : Int => x < y) (newPrices (runBids db bids).2 i) ∧ p ≤ q := by
  obtain ⟨hchain, q2, hq2, hpq⟩ := runBids_chain bids db i p hp
  have hqq : q2 = q := Option.some.inj (hq2.symm.trans hq)
  exact ⟨hchain.tail, hqq ▸ hpq⟩

/-- Witness for C5 on a run where 150 is accepted and 120 rejected. -/
theorem price_monotone_witness :
    List.Chain' (fun x y : Int => x < y)
        (newPrices (runBids [⟨1, "a", 0, 1000, 100, Status.running⟩]
          [⟨10, 1, some 150, none⟩, ⟨11, 1, some 120, none⟩, ⟨12, 1, some 200, none⟩]).2 1) ∧
      (100 : Int) ≤ 200 :=
  price_monotone [⟨1, "a", 0, 1000, 100, Status.running⟩]
    [⟨10, 1, some 150, none⟩, ⟨11, 1, some 120, none⟩, ⟨12, 1, some 200, none⟩] 1 100 200
    (by decide) (by decide)

/-- C6: any well-formed bid (nonzero id, positive numeric amount) on an
auction with an ordered window, submitted when the authoritative clock
is strictly past the auction's end time, fails Closed whatever the
stored status is — the handler re-checks the window instead of trusting
the sweeper. -/
theorem late_bid_closed (db : List Auction) (now id v : Int) (u : Option String)
    (a : Auction) (hid : id ≠ 0) (hv : 0 < v) (hf : findAuction db id = some a)
    (hse : a.startTime ≤ a.endTime) (hlate : a.endTime < now) :
    (submitBid db now id (some v) u).outcome = Except.error BidError.closed := by
  have h1 : ¬(id = 0 ∨ v ≤ 0) := by
    rintro (h | h)
    · exact hid h
    · omega
  have hw : windowPriceCheck a now v = some BidError.closed := by
    unfold windowPriceCheck
    rw [if_neg (by omega : ¬now < a.startTime), if_pos (Or.inl hlate)]
  rw [submitBid_eq_check db now id v u a BidError.closed h1 hf hw]

/-- Witness for C6: the stored status is still `running`, yet the late
bid is rejected Closed. -/
theorem late_bid_closed_witness :
    (submitBid [⟨1, "a", 0, 5, 100, Status.running⟩] 10 1 (some 150) none).outcome =
      Except.error BidError.closed :=
  late_bid_closed [⟨1, "a", 0, 5, 100, Status.running⟩] 10 1 150 none
    ⟨1, "a", 0, 5, 100, Status.running⟩ (by decide) (by decide) rfl (by decide) (by decide)

/-- C7: time-sync returns `(now, clientTime)` with a numeric client time
echoed verbatim and a string client time run through the timestamp
parser, and fails InvalidInput exactly when the client time is absent or
of the wrong type. -/
theorem time_sync_contract (parse : String → Int) (now : Int) (ct : Option JSVal) :
    (timeSync parse now ct = Except.error SyncError.invalidInput ↔
      ct = none ∨ ct = some JSVal.other) ∧
    (∀ n, ct = some (JSVal.num n) → timeSync parse now ct = Except.ok (now, n)) ∧
    (∀ s, ct = some (JSVal.str s) → timeSync parse now ct = Except.ok (now, parse s)) := by
  refine ⟨?_, ?_, ?_⟩
  · cases ct with
    | none => simp [timeSync]
    | some v => cases v <;> simp [timeSync]
  · rintro n rfl
    rfl
  · rintro s rfl
    rfl

/-- Witness for C7 at a numeric and an absent client time. -/
theorem time_sync_contract_witness :
    timeSync (fun _ => 0) 7 (some (JSVal.num 5)) = Except.ok (7, 5) ∧
      timeSync (fun _ => 0) 7 none = Except.error SyncError.invalidInput :=
  ⟨(time_sync_contract (fun _ => 0) 7 (some (JSVal.num 5))).2.1 5 rfl,
    (time_sync_contract (fun _ => 0) 7 none).1.mpr (Or.inl rfl)⟩

/-- C8 counterexample: the claim says a joinAuction with an unknown,
zero or negative id leaves the registry unchanged; for the negative id
-5 the code creates room -5 and adds the connection to it (and an
unknown positive id behaves the same way, since the join happens before
the database lookup). -/
theorem join_negative_id_changes_registry :
    (handleJoinAuction [] 0 emptyRegistry 1 (-5)).1.rooms = [((-5 : Int), [1])] ∧
      (handleJoinAuction [] 0 emptyRegistry 1 (-5)).2 = none ∧
      (handleJoinAuction [] 0 emptyRegistry 1 (-5)).1 ≠ emptyRegistry ∧
      (handleJoinAuction [] 0 emptyRegistry 1 7).1 ≠ emptyRegistry := by
  decide

/-- C8 amended: a joinAuction with a falsy (zero) id is a silent no-op;
for any nonzero id — negative or unknown included — the connection is
added to that id's room with no error reply, and only the auctionData
snapshot reply is conditional on the auction existing. -/
theorem join_auction_behavior (db : List Auction) (now : Int) (st : Registry) (w : Nat)
    (id : Int) :
    (id = 0 → handleJoinAuction db now st w id = (st, none)) ∧
    (id ≠ 0 → (handleJoinAuction db now st w id).1 = joinRoom st w id ∧
      w ∈ membersOf (handleJoinAuction db now st w id).1 id) ∧
    (findAuction db id = none → (handleJoinAuction db now st w id).2 = none) := by
  refine ⟨?_, ?_, ?_⟩
  · intro h
    unfold handleJoinAuction
    rw [if_pos h]
  · intro h
    unfold handleJoinAuction
    rw [if_neg h]
    cases hf : findAuction db id with
    | none => exact ⟨rfl, mem_joinRoom st w id h⟩
    | some a => exact ⟨rfl, mem_joinRoom st w id h⟩
  · intro hf
    unfold handleJoinAuction
    by_cases h : id = 0
    · rw [if_pos h]
    · rw [if_neg h, hf]

/-- Witness for the C8 amended theorem: joining id 7 with an empty table
adds the connection to room 7. -/
theorem join_auction_behavior_witness :
    (handleJoinAuction [] 0 emptyRegistry 1 7).1 = joinRoom emptyRegistry 1 7 ∧
      1 ∈ membersOf (handleJoinAuction [] 0 emptyRegistry 1 7).1 7 :=
  (join_auction_behavior [] 0 emptyRegistry 1 7).2.1 (by decide)

/-- C9: every failing bid call leaves the table unchanged and sends
nothing; every successful call sends exactly the one bidUpdate broadcast
it returns, performs exactly the one price mutation (rows with other ids
are untouched), and strictly raises the stored price of the bid row. -/
theorem bid_failure_atomic (db : List Auction) (now id : Int) (amount : Option Int)
    (u : Option String) :
    (∀ e, (submitBid db now id amount u).outcome = Except.error e →
      (submitBid db now id amount u).db = db ∧ (submitBid db now id amount u).sent = []) ∧
    (∀ pay, (submitBid db now id amount u).outcome = Except.ok pay →
      (submitBid db now id amount u).sent = [Msg.bidUpdate pay] ∧
      (submitBid db now id amount u).db = setPrice db id pay.newPrice ∧
      (∀ j, j ≠ id → findAuction (submitBid db now id amount u).db j = findAuction db j) ∧
      ∃ a, findAuction db id = some a ∧ a.currentPrice < pay.newPrice) := by
  rcases submitBid_inv db now id amount u with ⟨hdb, hsent, e0, he0⟩ |
    ⟨v, a, hamt, h1, hf, hw, heq⟩
  · constructor
    · intro e _
      exact ⟨hdb, hsent⟩
    · intro pay hpay
      rw [he0] at hpay
      exact Except.noConfusion hpay
  · constructor
    · intro e he
      rw [heq] at he
      exact Except.noConfusion he
    · intro pay hpay
      rw [heq] at hpay
      have hpayeq : pay = ⟨id, v, orAnonymous u, now⟩ := by
        simpa using hpay.symm
      subst hpayeq
      rw [heq]
      refine ⟨rfl, rfl, ?_, a, hf, (windowPriceCheck_none a now v hw).2.2.2⟩
      intro j hj
      rw [findAuction_setPrice]
      cases hfj : findAuction db j with
      | none => rfl
      | some c => simp [hj]

/-- Witness for C9 on a rejected low bid: table and broadcasts
untouched. -/
theorem bid_failure_atomic_witness :
    (submitBid [⟨1, "a", 0, 1000, 100, Status.running⟩] 10 1 (some 90) none).db =
        [⟨1, "a", 0, 1000, 100, Status.running⟩] ∧
      (submitBid [⟨1, "a", 0, 1000, 100, Status.running⟩] 10 1 (some 90) none).sent = [] :=
  (bid_failure_atomic [⟨1, "a", 0, 1000, 100, Status.running⟩] 10 1 (some 90) none).1
    BidError.priceTooLow (by decide)

/-- C10: a successful bid whose request omits the userId or carries the
falsy empty string broadcasts and returns a payload whose userId is the
string "anonymous". -/
theorem bid_anonymous_user (db : List Auction) (now id : Int) (amount : Option Int)
    (u : Option String) (pay : BidUpdate) (hu : u = none ∨ u = some "")
    (h : (submitBid db now id amount u).outcome = Except.ok pay) :
    pay.userId = "anonymous" ∧
      (submitBid db now id amount u).sent = [Msg.bidUpdate pay] := by
  rcases submitBid_inv db now id amount u with ⟨_, _, e0, he0⟩ |
    ⟨v, a, hamt, h1, hf, hw, heq⟩
  · rw [he0] at h
    exact Except.noConfusion h
  · rw [heq] at h
    have hpayeq : pay = ⟨id, v, orAnonymous u, now⟩ := by
      simpa using h.symm
    subst hpayeq
    rw [heq]
    refine ⟨?_, rfl⟩
    rcases hu with rfl | rfl
    · rfl
    · simp [orAnonymous]

/-- Witness for C10: a bid with no userId broadcasts "anonymous". -/
theorem bid_anonymous_user_witness :
    (⟨1, 150, "anonymous", 10⟩ : BidUpdate).userId = "anonymous" ∧
      (submitBid [⟨1, "a", 0, 1000, 100, Status.running⟩] 10 1 (some 150) none).sent =
        [Msg.bidUpdate ⟨1, 150, "anonymous", 10⟩] :=
  bid_anonymous_user [⟨1, "a", 0, 1000, 100, Status.running⟩] 10 1 (some 150) none
    ⟨1, 150, "anonymous", 10⟩ (Or.inl rfl) (by decide)

end AuctionCore
